import Mathlib

/- Shallow embedding of `src/classes.py` of the chordsheets repository: the
chord data model, the `Notes` transposition engine, the line tokenizer, and
the chordsheet / slide renderers, together with theorems checking the
specification's claims about them. -/

namespace Chordsheets

/-- Class `Chord` (classes.py 491-536): a raw chord symbol string. -/
structure Chord where
  chord : String
deriving DecidableEq, Repr

/-- `Notes.notes_sharp` (classes.py 546): the twelve sharp-spelled
semitones from C, written here in two halves. -/
def notes_sharp : List String :=
  ["C", "C#", "D", "D#", "E", "F"] ++ ["F#", "G", "G#", "A", "A#", "B"]

/-- `Notes.notes_flat` (classes.py 547). -/
def notes_flat : List String :=
  ["C", "Db", "D", "Eb", "E", "F", "Gb", "G", "Ab", "A", "Bb", "Cb"]

/-- `Notes.sharp_keys` (classes.py 551). -/
def sharp_keys : List String :=
  ["C", "G", "D", "A", "E", "B", "F#", "C#", "G#", "D#", "A#"]

/-- `Notes.flat_keys` (classes.py 552). -/
def flat_keys : List String :=
  ["F", "Bb", "Eb", "Ab", "Db", "Gb"]

/-- State of a constructed `Notes` instance: the chosen input and output
note tables and the precomputed semitone offset. -/
structure Notes where
  inputNotes : List String
  outputNotes : List String
  semitonesUp : Int
deriving DecidableEq, Repr

/-- `Notes.is_sharp_key` (classes.py 578-584). -/
def Notes.isSharpKey (key : String) : Bool := sharp_keys.contains key

/-- `Notes.is_flat_key` (classes.py 586-592). -/
def Notes.isFlatKey (key : String) : Bool := flat_keys.contains key

/-- `Notes.__init__` together with `Notes.__get_semitones_up`
(classes.py 554-602); a `ValueError` on an unsupported key is `none`.
Python's `%` on ints agrees with `Int.emod` for a positive modulus. -/
def Notes.mk? (input_key output_key : String) : Option Notes := do
  let inp ← if Notes.isSharpKey input_key then some notes_sharp
            else if Notes.isFlatKey input_key then some notes_flat
            else none
  let out ← if Notes.isSharpKey output_key then some notes_sharp
            else if Notes.isFlatKey output_key then some notes_flat
            else none
  some { inputNotes := inp, outputNotes := out,
         semitonesUp :=
           ((out.indexOf output_key : Int) - (inp.indexOf input_key : Int)) %
             (out.length : Int) }

/-- `Notes.__transpose` (classes.py 604-612); `list.index` raising
`ValueError` on a note absent from the input table is `none`. -/
def Notes.transposeNote (n : Notes) (note : String) : Option String :=
  if n.inputNotes.contains note then
    some (n.outputNotes.getD
      ((((n.inputNotes.indexOf note : Int) + n.semitonesUp) %
        (n.outputNotes.length : Int)).toNat) "")
  else none

/-- The membership test `chord[i] in "ABCDEFG"` of `Notes.transpose`. -/
def isNoteLetter (c : Char) : Bool :=
  (['A', 'B', 'C', 'D', 'E', 'F', 'G'] : List Char).contains c

/-- The character loop of `Notes.transpose` (classes.py 614-633), on the
symbol's character list. -/
def Notes.transposeChars (n : Notes) : List Char → Option (List Char)
  | [] => some []
  | [c] =>
    if isNoteLetter c then (n.transposeNote (String.mk [c])).map String.data
    else some [c]
  | c :: a :: rest =>
    if isNoteLetter c then
      if a == '#' || a == 'b' then do
        let t ← n.transposeNote (String.mk [c, a])
        let r ← n.transposeChars rest
        some (t.data ++ r)
      else do
        let t ← n.transposeNote (String.mk [c])
        let r ← n.transposeChars (a :: rest)
        some (t.data ++ r)
    else do
      let r ← n.transposeChars (a :: rest)
      some (c :: r)

/-- `Notes.transpose` (classes.py 614-633). -/
def Notes.transpose (n : Notes) (c : Chord) : Option String :=
  (n.transposeChars c.chord.data).map (fun l => String.mk l)

/-- Checks that every note token of a character list (an `A`-`G` letter
with an optional immediately following accidental) is present in the given
note table, following the token decomposition of `Notes.transpose`. -/
def tokensIn (tbl : List String) : List Char → Bool
  | [] => true
  | [c] => !isNoteLetter c || tbl.contains (String.mk [c])
  | c :: a :: rest =>
    if isNoteLetter c then
      if a == '#' || a == 'b' then
        tbl.contains (String.mk [c, a]) && tokensIn tbl rest
      else
        tbl.contains (String.mk [c]) && tokensIn tbl (a :: rest)
    else tokensIn tbl (a :: rest)

/-- A note that is present in the input table of a same-table,
offset-zero `Notes` instance transposes to itself. -/
theorem transposeNote_same_table (tbl : List String)
    (htbl : tbl = notes_sharp ∨ tbl = notes_flat) (note : String)
    (hmem : tbl.contains note = true) :
    Notes.transposeNote ⟨tbl, tbl, 0⟩ note = some note := by
  rcases htbl with rfl | rfl
  · have h : note ∈ notes_sharp := by simpa using hmem
    exact (by decide : ∀ x ∈ notes_sharp,
      Notes.transposeNote ⟨notes_sharp, notes_sharp, 0⟩ x = some x) note h
  · have h : note ∈ notes_flat := by simpa using hmem
    exact (by decide : ∀ x ∈ notes_flat,
      Notes.transposeNote ⟨notes_flat, notes_flat, 0⟩ x = some x) note h

/-- A character list whose note tokens all lie in the table of a
same-table, offset-zero `Notes` instance transposes to itself. -/
theorem transposeChars_same_table (tbl : List String)
    (htbl : tbl = notes_sharp ∨ tbl = notes_flat) :
    ∀ l : List Char, tokensIn tbl l = true →
      Notes.transposeChars ⟨tbl, tbl, 0⟩ l = some l
  | [], _ => rfl
  | [c], h => by
    by_cases hc : isNoteLetter c = true
    · have hmem : tbl.contains (String.mk [c]) = true := by
        simpa [tokensIn, hc] using h
      simp [Notes.transposeChars, hc,
        transposeNote_same_table tbl htbl _ hmem]
    · simp [Notes.transposeChars, hc]
  | c :: a :: rest, h => by
    by_cases hc : isNoteLetter c = true
    · by_cases ha : (a == '#' || a == 'b') = true
      · have h' : tbl.contains (String.mk [c, a]) = true ∧
            tokensIn tbl rest = true := by
          simpa [tokensIn, hc, ha] using h
        simp [Notes.transposeChars, hc, ha,
          transposeNote_same_table tbl htbl _ h'.1,
          transposeChars_same_table tbl htbl rest h'.2]
      · have h' : tbl.contains (String.mk [c]) = true ∧
            tokensIn tbl (a :: rest) = true := by
          simpa [tokensIn, hc, ha] using h
        simp [Notes.transposeChars, hc, ha,
          transposeNote_same_table tbl htbl _ h'.1,
          transposeChars_same_table tbl htbl (a :: rest) h'.2]
    · have h' : tokensIn tbl (a :: rest) = true := by
        simpa [tokensIn, hc] using h
      simp [Notes.transposeChars, hc,
        transposeChars_same_table tbl htbl (a :: rest) h']

/-- C1 counterexample: under the `Notes` instance from key `C` to key `D`,
the chord `D/F#` transposes to `E/G#`: the bass note `F#` after the root
token is transposed as well, while the claim would force the output
`E/F#` (the transposed root `E` followed by the original tail verbatim). -/
theorem c1_counterexample :
    (Notes.mk? "C" "D").bind (fun n => n.transpose ⟨"D/F#"⟩) = some "E/G#" ∧
    (Notes.mk? "C" "D").bind (fun n => n.transposeNote "D") = some "E" ∧
    ("E/G#" : String) ≠ "E" ++ "/F#" := by
  refine ⟨by decide, by decide, by decide⟩

/-- C1 (amended): `Notes.transpose` transposes every note token — an
`A`-`G` letter with an optional immediately following `#` or `b` —
wherever it occurs in the symbol, not only the leading root token;
characters that do not start a note token are passed through verbatim. -/
theorem c1_transpose_every_note_token :
    (∀ (n : Notes) (c : Char) (l : List Char), isNoteLetter c = false →
      n.transposeChars (c :: l) =
        (n.transposeChars l).map (fun r => c :: r)) ∧
    (∀ (n : Notes) (c a : Char) (l : List Char), isNoteLetter c = true →
      (a == '#' || a == 'b') = true →
      n.transposeChars (c :: a :: l) =
        (n.transposeNote (String.mk [c, a])).bind (fun t =>
          (n.transposeChars l).map (fun r => t.data ++ r))) ∧
    (∀ (n : Notes) (c a : Char) (l : List Char), isNoteLetter c = true →
      (a == '#' || a == 'b') = false →
      n.transposeChars (c :: a :: l) =
        (n.transposeNote (String.mk [c])).bind (fun t =>
          (n.transposeChars (a :: l)).map (fun r => t.data ++ r))) := by
  refine ⟨?_, ?_, ?_⟩
  · intro n c l hc
    cases l with
    | nil => simp [Notes.transposeChars, hc]
    | cons a rest =>
      cases h : n.transposeChars (a :: rest) <;>
        simp [Notes.transposeChars, hc, h]
  · intro n c a l hc ha
    cases ht : n.transposeNote (String.mk [c, a]) <;>
      cases hr : n.transposeChars l <;>
        simp [Notes.transposeChars, hc, ha, ht, hr]
  · intro n c a l hc ha
    cases ht : n.transposeNote (String.mk [c]) <;>
      cases hr : n.transposeChars (a :: l) <;>
        simp [Notes.transposeChars, hc, ha, ht, hr]

/-- The `Notes` state that `Notes.mk? "C" "D"` produces: sharp table on
both sides, offset two semitones. -/
def notesCD : Notes := ⟨notes_sharp, notes_sharp, 2⟩

/-- Witness for C1 (amended), at the `Notes` instance from `C` to `D` and
the chord `D/F#`: the non-note character `/` passes through, and the note
tokens `D` and `F#` are both transposed. -/
theorem c1_transpose_every_note_token_witness :
    notesCD.transposeChars ('/' :: ['F', '#']) =
      (notesCD.transposeChars ['F', '#']).map (fun r => '/' :: r) ∧
    notesCD.transposeChars ('F' :: '#' :: []) =
      (notesCD.transposeNote (String.mk ['F', '#'])).bind (fun t =>
        (notesCD.transposeChars []).map (fun r => t.data ++ r)) ∧
    notesCD.transposeChars ('D' :: '/' :: ['F', '#']) =
      (notesCD.transposeNote (String.mk ['D'])).bind (fun t =>
        (notesCD.transposeChars ('/' :: ['F', '#'])).map
          (fun r => t.data ++ r)) :=
  ⟨c1_transpose_every_note_token.1 notesCD '/' _ (by decide),
   c1_transpose_every_note_token.2.1 notesCD 'F' '#' _ (by decide)
     (by decide),
   c1_transpose_every_note_token.2.2 notesCD 'D' '/' _ (by decide)
     (by decide)⟩

/-- C2 counterexample: transposing the chord `F#` from key `C` to key `F`
does not return `A#`. -/
theorem c2_counterexample :
    (Notes.mk? "C" "F").bind (fun n => n.transpose ⟨"F#"⟩) ≠ some "A#" := by
  decide

/-- C2 (amended): transposing the chord `F#` from key `C` to key `F`
returns `Cb`, the flat-table spelling at index `(6 + 5) % 12 = 11`. -/
theorem c2_transpose_fsharp_c_to_f :
    (Notes.mk? "C" "F").bind (fun n => n.transpose ⟨"F#"⟩) = some "Cb" := by
  decide

/-- C3 counterexample: transposing from key `C` to itself is not the
identity on every chord: on the chord `Bb`, whose note is absent from the
sharp-side input table, the Python code raises `ValueError` (here `none`)
instead of returning the symbol unchanged. -/
theorem c3_counterexample :
    (Notes.mk? "C" "C").bind (fun n => n.transpose ⟨"Bb"⟩) = none ∧
    (Notes.mk? "C" "C").bind (fun n => n.transpose ⟨"Bb"⟩) ≠ some "Bb" := by
  refine ⟨by decide, by decide⟩

/-- C3 (amended): for every supported key `k`, transposing a chord from
`k` to `k` is the identity on every chord all of whose note tokens occur
in `k`'s note table; chords with a note token outside the table fail
instead (see the counterexample). -/
theorem c3_same_key_identity (k : String) (n : Notes)
    (h : Notes.mk? k k = some n) (c : Chord)
    (htok : tokensIn n.inputNotes c.chord.data = true) :
    n.transpose c = some c.chord := by
  have hn : n.inputNotes = n.outputNotes ∧ n.semitonesUp = 0 ∧
      (n.inputNotes = notes_sharp ∨ n.inputNotes = notes_flat) := by
    by_cases hs : Notes.isSharpKey k = true
    · have hmk : Notes.mk? k k = some ⟨notes_sharp, notes_sharp,
          ((notes_sharp.indexOf k : Int) - (notes_sharp.indexOf k : Int)) %
            (notes_sharp.length : Int)⟩ := by
        simp only [Notes.mk?, hs, if_true]
        rfl
      rw [hmk] at h
      obtain rfl := Option.some.inj h
      exact ⟨rfl, by simp, Or.inl rfl⟩
    · by_cases hf : Notes.isFlatKey k = true
      · have hmk : Notes.mk? k k = some ⟨notes_flat, notes_flat,
            ((notes_flat.indexOf k : Int) - (notes_flat.indexOf k : Int)) %
              (notes_flat.length : Int)⟩ := by
          simp only [Notes.mk?, hs, hf, Bool.false_eq_true, if_false,
            if_true]
          rfl
        rw [hmk] at h
        obtain rfl := Option.some.inj h
        exact ⟨rfl, by simp, Or.inr rfl⟩
      · have hmk : Notes.mk? k k = none := by
          simp [Notes.mk?, hs, hf]
        rw [hmk] at h
        exact absurd h (by simp)
  obtain ⟨hio, hsemi, htbl⟩ := hn
  have hrepr : n = ⟨n.inputNotes, n.inputNotes, 0⟩ := by
    cases n
    simp_all
  rw [Notes.transpose, hrepr]
  rw [hrepr] at htok
  rw [transposeChars_same_table n.inputNotes htbl c.chord.data htok]
  simp

/-- Witness for C3 (amended): from key `C` to itself, the chord `Gmaj7`
(whose only note token `G` lies in the sharp table) transposes to
itself. -/
theorem c3_same_key_identity_witness :
    Notes.mk? "C" "C" = some ⟨notes_sharp, notes_sharp, 0⟩ ∧
    tokensIn notes_sharp ("Gmaj7".data) = true ∧
    Notes.transpose ⟨notes_sharp, notes_sharp, 0⟩ ⟨"Gmaj7"⟩ =
      some "Gmaj7" :=
  ⟨by decide, by decide,
   c3_same_key_identity "C" ⟨notes_sharp, notes_sharp, 0⟩ (by decide)
     ⟨"Gmaj7"⟩ (by decide)⟩

/-! ### Lyric line parsing (classes.py 373-400) -/

/-- Class `Character` (classes.py 447-488): a glyph of length at most one
together with an optional chord. -/
structure Character where
  char : String
  chord : Option Chord
deriving DecidableEq, Repr

/-- The whitespace set stripped by Python's `str.rstrip()` on ASCII
text: space, tab, newline, vertical tab, form feed, carriage return. -/
def pyIsSpace (c : Char) : Bool :=
  c == ' ' || c == '\t' || c == '\n' || c == '\x0b' || c == '\x0c' ||
    c == '\r'

/-- Python's `line.rstrip()` (classes.py 377) on the character list. -/
def pyRstrip (l : List Char) : List Char :=
  (l.reverse.dropWhile pyIsSpace).reverse

/-- The scanning state of the `Lyric.parse` loop: outside any chord,
inside a bracketed chord (with the chord text read so far), or just past
a chord's closing bracket. -/
inductive LyricScanState where
  | normal : LyricScanState
  | inChord : List Char → LyricScanState
  | afterChord : List Char → LyricScanState

/-- The character loop of `Lyric.parse` (classes.py 378-398) as a state
machine; the `ValueError` raised when the end of the line is reached
inside a chord is `none`. -/
def lyricScanAux : LyricScanState → List Char → Option (List Character)
  | .normal, [] => some []
  | .normal, c :: rest =>
    if c == '[' then lyricScanAux (.inChord []) rest
    else (lyricScanAux .normal rest).map
      (fun cs => ⟨String.mk [c], none⟩ :: cs)
  | .inChord _, [] => none
  | .inChord acc, c :: rest =>
    if c == ']' then lyricScanAux (.afterChord acc) rest
    else lyricScanAux (.inChord (acc ++ [c])) rest
  | .afterChord ch, [] => some [⟨"", some ⟨String.mk ch⟩⟩]
  | .afterChord ch, c :: rest =>
    if c == '[' then
      (lyricScanAux (.inChord []) rest).map
        (fun cs => ⟨"", some ⟨String.mk ch⟩⟩ :: cs)
    else
      (lyricScanAux .normal rest).map
        (fun cs => ⟨String.mk [c], some ⟨String.mk ch⟩⟩ :: cs)

/-- `Lyric.parse` (classes.py 373-400) on a character list: strip
trailing whitespace, then scan. -/
def Lyric.parseChars (l : List Char) : Option (List Character) :=
  lyricScanAux .normal (pyRstrip l)

/-- `Lyric.parse` (classes.py 373-400); the produced value is the
`characters` field of the resulting `Lyric`. -/
def Lyric.parse (line : String) : Option (List Character) :=
  Lyric.parseChars line.data

/-- The line contains a `[` that is not followed by any `]` before the
end of the line. -/
def hasUnterminatedChord (l : List Char) : Prop :=
  ∃ pre suf : List Char, l = pre ++ '[' :: suf ∧ ']' ∉ suf

theorem hasUnterminatedChord_nil : ¬ hasUnterminatedChord [] := by
  rintro ⟨pre, suf, h, -⟩
  simp at h

theorem hasUnterminatedChord_cons (c : Char) (l : List Char)
    (hc : c ≠ '[') :
    hasUnterminatedChord (c :: l) ↔ hasUnterminatedChord l := by
  constructor
  · rintro ⟨pre, suf, heq, hns⟩
    cases pre with
    | nil =>
      simp only [List.nil_append, List.cons.injEq] at heq
      exact absurd heq.1 hc
    | cons p pre' =>
      simp only [List.cons_append, List.cons.injEq] at heq
      exact ⟨pre', suf, heq.2, hns⟩
  · rintro ⟨pre, suf, heq, hns⟩
    exact ⟨c :: pre, suf, by rw [heq]; rfl, hns⟩

theorem hasUnterminatedChord_cons_bracket (l : List Char) :
    hasUnterminatedChord ('[' :: l) ↔
      (']' ∉ l ∨ hasUnterminatedChord l) := by
  constructor
  · rintro ⟨pre, suf, heq, hns⟩
    cases pre with
    | nil =>
      simp only [List.nil_append, List.cons.injEq] at heq
      exact Or.inl (heq.2 ▸ hns)
    | cons p pre' =>
      simp only [List.cons_append, List.cons.injEq] at heq
      exact Or.inr ⟨pre', suf, heq.2, hns⟩
  · rintro (h | ⟨pre, suf, heq, hns⟩)
    · exact ⟨[], l, rfl, h⟩
    · exact ⟨'[' :: pre, suf, by rw [heq]; rfl, hns⟩

/-- The scan fails exactly on an unterminated chord, simultaneously over
the three scanning states. -/
theorem lyricScanAux_eq_none_iff :
    ∀ l : List Char,
      (lyricScanAux .normal l = none ↔ hasUnterminatedChord l) ∧
      (∀ acc, lyricScanAux (.inChord acc) l = none ↔
        (']' ∉ l ∨ hasUnterminatedChord l)) ∧
      (∀ ch, lyricScanAux (.afterChord ch) l = none ↔
        hasUnterminatedChord l) := by
  intro l
  induction l with
  | nil =>
    refine ⟨?_, ?_, ?_⟩
    · simp [lyricScanAux, hasUnterminatedChord_nil]
    · intro acc
      simp [lyricScanAux]
    · intro ch
      simp [lyricScanAux, hasUnterminatedChord_nil]
  | cons c rest ih =>
    obtain ⟨ihN, ihC, ihA⟩ := ih
    refine ⟨?_, ?_, ?_⟩
    · by_cases hc : c = '['
      · subst hc
        rw [show lyricScanAux .normal ('[' :: rest) =
            lyricScanAux (.inChord []) rest by simp [lyricScanAux]]
        rw [ihC [], hasUnterminatedChord_cons_bracket]
      · rw [show lyricScanAux .normal (c :: rest) =
            (lyricScanAux .normal rest).map
              (fun cs => ⟨String.mk [c], none⟩ :: cs) by
          simp [lyricScanAux, hc]]
        rw [Option.map_eq_none', ihN, hasUnterminatedChord_cons c rest hc]
    · intro acc
      by_cases hc : c = ']'
      · subst hc
        rw [show lyricScanAux (.inChord acc) (']' :: rest) =
            lyricScanAux (.afterChord acc) rest by simp [lyricScanAux]]
        rw [ihA acc, hasUnterminatedChord_cons ']' rest (by decide)]
        simp
      · rw [show lyricScanAux (.inChord acc) (c :: rest) =
            lyricScanAux (.inChord (acc ++ [c])) rest by
          simp [lyricScanAux, hc]]
        rw [ihC (acc ++ [c])]
        have hc' : ¬ (']' = c) := fun h => hc h.symm
        by_cases hcb : c = '['
        · subst hcb
          rw [hasUnterminatedChord_cons_bracket]
          simp only [List.mem_cons, not_or]
          tauto
        · rw [hasUnterminatedChord_cons c rest hcb]
          simp only [List.mem_cons, not_or]
          tauto
    · intro ch
      by_cases hc : c = '['
      · subst hc
        rw [show lyricScanAux (.afterChord ch) ('[' :: rest) =
            (lyricScanAux (.inChord []) rest).map
              (fun cs => ⟨"", some ⟨String.mk ch⟩⟩ :: cs) by
          simp [lyricScanAux]]
        rw [Option.map_eq_none', ihC [], hasUnterminatedChord_cons_bracket]
      · rw [show lyricScanAux (.afterChord ch) (c :: rest) =
            (lyricScanAux .normal rest).map
              (fun cs => ⟨String.mk [c], some ⟨String.mk ch⟩⟩ :: cs) by
          simp [lyricScanAux, hc]]
        rw [Option.map_eq_none', ihN, hasUnterminatedChord_cons c rest hc]

/-- Appending whitespace on the right neither creates nor removes an
unterminated chord. -/
theorem hasUnterminatedChord_append_space (m ws : List Char)
    (hws : ∀ c ∈ ws, pyIsSpace c = true) :
    hasUnterminatedChord (m ++ ws) ↔ hasUnterminatedChord m := by
  have hbr : '[' ∉ ws := fun hm => absurd (hws '[' hm) (by decide)
  have hcl : ']' ∉ ws := fun hm => absurd (hws ']' hm) (by decide)
  constructor
  · rintro ⟨pre, suf, heq, hns⟩
    rcases List.append_eq_append_iff.mp heq with
      ⟨a, ha1, ha2⟩ | ⟨a, ha1, ha2⟩
    · exfalso
      apply hbr
      rw [ha2]
      exact List.mem_append_right _ (List.mem_cons_self _ _)
    · cases a with
      | nil =>
        exfalso
        apply hbr
        rw [List.nil_append] at ha2
        rw [← ha2]
        exact List.mem_cons_self _ _
      | cons x a' =>
        rw [List.cons_append] at ha2
        obtain ⟨h1, h2⟩ := List.cons.inj ha2
        refine ⟨pre, a', ?_, ?_⟩
        · rw [ha1, h1]
        · intro hm
          refine hns ?_
          rw [h2]
          exact List.mem_append_left _ hm
  · rintro ⟨pre, suf, heq, hns⟩
    refine ⟨pre, suf ++ ws, by rw [heq]; simp, ?_⟩
    intro hm
    rcases List.mem_append.mp hm with h | h
    · exact hns h
    · exact hcl h

/-- Every character list is its rstrip followed by whitespace. -/
theorem pyRstrip_decomposition (l : List Char) :
    ∃ ws, l = pyRstrip l ++ ws ∧ ∀ c ∈ ws, pyIsSpace c = true := by
  refine ⟨(l.reverse.takeWhile pyIsSpace).reverse, ?_, ?_⟩
  · have h := List.takeWhile_append_dropWhile (p := pyIsSpace)
      (l := l.reverse)
    have h2 := congrArg List.reverse h
    rw [List.reverse_append, List.reverse_reverse] at h2
    exact h2.symm
  · intro c hc
    exact List.mem_takeWhile_imp (List.mem_reverse.mp hc)

/-- C9: `Lyric.parse` fails (raises `UnterminatedChord`) exactly when the
line contains a `[` with no later `]`; on every other line it succeeds. -/
theorem c9_unterminated_chord_iff (line : String) :
    Lyric.parse line = none ↔ hasUnterminatedChord line.data := by
  obtain ⟨ws, hdec, hws⟩ := pyRstrip_decomposition line.data
  rw [Lyric.parse, Lyric.parseChars,
    (lyricScanAux_eq_none_iff (pyRstrip line.data)).1]
  conv_rhs => rw [hdec]
  rw [hasUnterminatedChord_append_space _ ws hws]

/-- C10: `Lyric.parse` strips all trailing whitespace before scanning, so
two lines differing only in trailing whitespace parse identically, and
trailing whitespace produces no `Character` tokens. -/
theorem c10_trailing_whitespace_stripped (core ws₁ ws₂ : List Char)
    (h1 : ∀ c ∈ ws₁, pyIsSpace c = true)
    (h2 : ∀ c ∈ ws₂, pyIsSpace c = true) :
    Lyric.parseChars (core ++ ws₁) = Lyric.parseChars (core ++ ws₂) ∧
    Lyric.parseChars (core ++ ws₁) = Lyric.parseChars core := by
  have key : ∀ ws, (∀ c ∈ ws, pyIsSpace c = true) →
      pyRstrip (core ++ ws) = pyRstrip core := by
    intro ws hws
    rw [pyRstrip, pyRstrip, List.reverse_append, List.dropWhile_append]
    have hnil : ws.reverse.dropWhile pyIsSpace = [] :=
      List.dropWhile_eq_nil_iff.mpr fun x hx =>
        hws x (List.mem_reverse.mp hx)
    rw [hnil]
    rfl
  constructor
  · rw [Lyric.parseChars, Lyric.parseChars, key ws₁ h1, key ws₂ h2]
  · rw [Lyric.parseChars, Lyric.parseChars, key ws₁ h1]

/-- Witness for C10: `"ab \t\n"` and `"ab\r"` parse to the same two
characters as plain `"ab"`. -/
theorem c10_trailing_whitespace_stripped_witness :
    Lyric.parseChars ("ab".data ++ [' ', '\t', '\n']) =
      Lyric.parseChars ("ab".data ++ ['\r']) ∧
    Lyric.parseChars ("ab".data ++ [' ', '\t', '\n']) =
      Lyric.parseChars "ab".data :=
  c10_trailing_whitespace_stripped "ab".data [' ', '\t', '\n'] ['\r']
    (by decide) (by decide)

/-! ### Lines, sections and slide generation (classes.py 21-215, 276-360) -/

/-- The `Line` hierarchy (classes.py 218-444) as a tagged variant:
`MusicLine` owns measures of chords, `BreakLine` carries no data, `Lyric`
owns a character sequence. -/
inductive Line where
  | music (measures : List (List Chord)) : Line
  | breakLine : Line
  | lyric (characters : List Character) : Line
deriving DecidableEq, Repr

/-- `has_lyrics` of the three `Line` classes. -/
def Line.hasLyrics : Line → Bool
  | .lyric _ => true
  | _ => false

/-- `is_break` of the three `Line` classes. -/
def Line.isBreak : Line → Bool
  | .breakLine => true
  | _ => false

/-- `get_lyrics` of the three `Line` classes: a `Lyric` joins its
characters' glyphs, the other two return the empty string. -/
def Line.getLyrics : Line → String
  | .lyric cs => String.join (cs.map Character.char)
  | _ => ""

/-- Class `Section` (classes.py 86-215). -/
structure Section where
  name : String
  lines : List Line
deriving DecidableEq, Repr

/-- `Section.has_lyrics` (classes.py 139-146). -/
def Section.hasLyrics (s : Section) : Bool := s.lines.any Line.hasLyrics

/-- `create_slide` inside `Section.generate_slides` (classes.py
179-190). -/
def createSlide (isFirst : Bool) (lines : List Line) : String :=
  if lines.length > 0 then
    "\\begin\x7bframe\x7d\n" ++ "\\header\n" ++ "\\begin\x7bcenter\x7d\n" ++
      String.intercalate "\n\n" (lines.map Line.getLyrics) ++
      "\n\\end\x7bcenter\x7d\n" ++
      (if isFirst then "\\cite\n" else "") ++ "\\end\x7bframe\x7d"
  else ""

/-- The line loop of `Section.generate_slides` (classes.py 195-207):
`out` is the output so far and `run` the lines collected for the next
slide. -/
def slidesGo (isFirst : Bool) : List Line → String → List Line → String
  | [], out, run => out ++ createSlide isFirst run
  | l :: rest, out, run =>
    if l.isBreak then
      slidesGo isFirst rest (out ++ createSlide isFirst run) []
    else slidesGo isFirst rest out (run ++ [l])

/-- `Section.generate_slides` (classes.py 173-207); the `RuntimeError`
for a section without lyrics is `none`. -/
def Section.generateSlides (isFirst : Bool) (s : Section) : Option String :=
  if s.hasLyrics then some (slidesGo isFirst s.lines "" []) else none

/-- The runs of consecutive non-break lines that the slide loop
partitions the line list into (the run open at the end included). -/
def runsAux : List Line → List Line → List (List Line)
  | [], run => [run]
  | l :: rest, run =>
    if l.isBreak then run :: runsAux rest [] else runsAux rest (run ++ [l])

/-- The non-empty runs: exactly the runs that become slide frames. -/
def nonEmptyRuns (lines : List Line) : List (List Line) :=
  (runsAux lines []).filter (fun r => !r.isEmpty)

/-- Concatenation of a list of strings. -/
def concatAll : List String → String
  | [] => ""
  | s :: rest => s ++ concatAll rest

theorem slidesGo_eq (f : Bool) :
    ∀ (lines : List Line) (out : String) (run : List Line),
      slidesGo f lines out run =
        out ++ concatAll ((runsAux lines run).map (createSlide f)) := by
  intro lines
  induction lines with
  | nil =>
    intro out run
    simp [slidesGo, runsAux, concatAll, String.append_empty]
  | cons l rest ih =>
    intro out run
    by_cases hb : l.isBreak = true
    · simp only [slidesGo, runsAux, hb, if_true, ih, List.map_cons,
        concatAll]
      rw [String.append_assoc]
    · simp only [slidesGo, runsAux, hb, Bool.false_eq_true, if_false, ih]

/-- Dropping the empty runs does not change the concatenated slides,
since an empty run renders as the empty string. -/
theorem concatAll_filter_empty (f : Bool) :
    ∀ rs : List (List Line),
      concatAll (rs.map (createSlide f)) =
        concatAll ((rs.filter (fun r => !r.isEmpty)).map (createSlide f)) := by
  intro rs
  induction rs with
  | nil => rfl
  | cons r rest ih =>
    by_cases hr : r.isEmpty = true
    · have hnil : r = [] := List.isEmpty_iff.mp hr
      subst hnil
      simpa [concatAll, String.empty_append, createSlide] using ih
    · simp only [List.filter_cons, hr, Bool.not_false, List.map_cons,
        concatAll, ih]

/-- C6 (amended): within a single `Section.generate_slides` call, every
produced frame — not only the first — carries the citation footer when
the first-slide flag is set, and no frame carries it when the flag is
off; at song level the flag is set exactly for the first rendered
section. -/
theorem c6_cite_on_every_frame_of_flagged_section (first : Bool)
    (s : Section) (out : String)
    (h : Section.generateSlides first s = some out) :
    out = concatAll ((nonEmptyRuns s.lines).map (fun r =>
      "\\begin\x7bframe\x7d\n\\header\n\\begin\x7bcenter\x7d\n" ++
        String.intercalate "\n\n" (r.map Line.getLyrics) ++
        "\n\\end\x7bcenter\x7d\n" ++
        (if first then "\\cite\n" else "") ++ "\\end\x7bframe\x7d")) := by
  rw [Section.generateSlides] at h
  by_cases hl : s.hasLyrics = true
  · rw [if_pos hl] at h
    obtain rfl := (Option.some.inj h).symm
    rw [slidesGo_eq, String.empty_append, concatAll_filter_empty first]
    show concatAll ((nonEmptyRuns s.lines).map (createSlide first)) = _
    refine congrArg concatAll (List.map_congr_left ?_)
    intro r hr
    have hne : r.isEmpty = false := by
      have := (List.mem_filter.mp hr).2
      simpa using this
    have hlen : r.length > 0 := by
      cases r with
      | nil => simp at hne
      | cons x xs => simp
    rw [createSlide, if_pos hlen]
    simp [String.append_assoc]
  · rw [if_neg hl] at h
    exact absurd h (by simp)

/-- A lyric character with glyph `a` and no chord. -/
def glyph (a : String) : Character := ⟨a, none⟩

/-- Demo section for the C6 counterexample: one lyric line, a break
line, one lyric line. -/
def demoSection : Section :=
  ⟨"Verse 1", [.lyric [glyph "a"], .breakLine, .lyric [glyph "b"]]⟩

/-- Class `Song` (classes.py 21-83). -/
structure Song where
  sections : List (String × Section)
  order : List (String × Nat)
  key : String
deriving Repr

/-- The order loop of `Song.generate_slides` (classes.py 61-72): `gen`
is the set of already generated section names, `first` the pending
first-slide flag, `out` the output so far; a missing section name (a
`KeyError`) is `none`. -/
def slidesSongGo (s : Song) (rpt : Bool) :
    List (String × Nat) → List String → Bool → String → Option String
  | [], _, _, out => some out
  | (name, _) :: rest, gen, first, out =>
    if rpt || !gen.contains name then
      match List.lookup name s.sections with
      | none => none
      | some sec =>
        if sec.hasLyrics then
          match Section.generateSlides first sec with
          | none => none
          | some sl =>
            slidesSongGo s rpt rest (name :: gen) false (out ++ sl ++ "\n\n")
        else slidesSongGo s rpt rest (name :: gen) first out
    else slidesSongGo s rpt rest (name :: gen) first out

/-- `Song.generate_slides` (classes.py 55-72). -/
def Song.generateSlides (s : Song) (rpt : Bool) : Option String :=
  slidesSongGo s rpt s.order [] true ""

/-- Does `pat` occur at the head of the list? -/
def leadsWith : List Char → List Char → Bool
  | [], _ => true
  | _ :: _, [] => false
  | p :: ps, c :: cs => p == c && leadsWith ps cs

/-- Number of positions at which `pat` occurs in the list. -/
def occCount (pat : List Char) : List Char → Nat
  | [] => 0
  | c :: rest => (if leadsWith pat (c :: rest) then 1 else 0) + occCount pat rest

/-- Demo song for the C6 counterexample: a single section, split in two
frames by a break line, rendered once. -/
def demoSong : Song :=
  ⟨[("Verse 1", demoSection)], [("Verse 1", 1)], "C"⟩

set_option maxRecDepth 10000 in
/-- C6 counterexample: in the whole-song slides output of `demoSong`,
both frames — both belonging to the first (and only) rendered section,
which a break line splits in two — carry the citation footer `\cite`,
while the claim allows it on exactly one frame of the song. -/
theorem c6_counterexample :
    Song.generateSlides demoSong true = some
      ("\\begin\x7bframe\x7d\n\\header\n\\begin\x7bcenter\x7d\na\n\\end\x7bcenter\x7d\n\\cite\n\\end\x7bframe\x7d\\begin\x7bframe\x7d\n\\header\n\\begin\x7bcenter\x7d\nb\n\\end\x7bcenter\x7d\n\\cite\n\\end\x7bframe\x7d\n\n") ∧
    occCount "\\cite".data
      ("\\begin\x7bframe\x7d\n\\header\n\\begin\x7bcenter\x7d\na\n\\end\x7bcenter\x7d\n\\cite\n\\end\x7bframe\x7d\\begin\x7bframe\x7d\n\\header\n\\begin\x7bcenter\x7d\nb\n\\end\x7bcenter\x7d\n\\cite\n\\end\x7bframe\x7d\n\n").data = 2 ∧
    occCount "\\begin\x7bframe\x7d".data
      ("\\begin\x7bframe\x7d\n\\header\n\\begin\x7bcenter\x7d\na\n\\end\x7bcenter\x7d\n\\cite\n\\end\x7bframe\x7d\\begin\x7bframe\x7d\n\\header\n\\begin\x7bcenter\x7d\nb\n\\end\x7bcenter\x7d\n\\cite\n\\end\x7bframe\x7d\n\n").data = 2 := by
  refine ⟨by decide, by decide, by decide⟩

/-- Witness for C6 (amended), on `demoSection` with the flag set: the
rendered output decomposes into its two non-empty runs' frames, each
carrying `\cite`. -/
theorem c6_cite_on_every_frame_witness :
    Section.generateSlides true demoSection = some
      ("\\begin\x7bframe\x7d\n\\header\n\\begin\x7bcenter\x7d\na\n\\end\x7bcenter\x7d\n\\cite\n\\end\x7bframe\x7d\\begin\x7bframe\x7d\n\\header\n\\begin\x7bcenter\x7d\nb\n\\end\x7bcenter\x7d\n\\cite\n\\end\x7bframe\x7d") ∧
    ("\\begin\x7bframe\x7d\n\\header\n\\begin\x7bcenter\x7d\na\n\\end\x7bcenter\x7d\n\\cite\n\\end\x7bframe\x7d\\begin\x7bframe\x7d\n\\header\n\\begin\x7bcenter\x7d\nb\n\\end\x7bcenter\x7d\n\\cite\n\\end\x7bframe\x7d" : String) =
      concatAll ((nonEmptyRuns demoSection.lines).map (fun r =>
        "\\begin\x7bframe\x7d\n\\header\n\\begin\x7bcenter\x7d\n" ++
          String.intercalate "\n\n" (r.map Line.getLyrics) ++
          "\n\\end\x7bcenter\x7d\n" ++
          (if true then "\\cite\n" else "") ++ "\\end\x7bframe\x7d")) :=
  ⟨by decide,
   c6_cite_on_every_frame_of_flagged_section true demoSection _ (by decide)⟩

/-- C7: a section whose lines are `[Lyric, Lyric, Break, Lyric]`
produces exactly the two frames of its two non-empty runs: the first
holds the first two lyric lines' texts separated by a blank line, the
second holds the fourth line's text; the break line contributes no frame
and an empty run renders as the empty string. -/
theorem c7_two_frames (first : Bool) (name : String)
    (a b c : List Character) :
    Section.generateSlides first
        ⟨name, [.lyric a, .lyric b, .breakLine, .lyric c]⟩ =
      some (createSlide first [.lyric a, .lyric b] ++
        createSlide first [.lyric c]) ∧
    createSlide first [.lyric a, .lyric b] =
      "\\begin\x7bframe\x7d\n\\header\n\\begin\x7bcenter\x7d\n" ++
        (Line.lyric a).getLyrics ++ "\n\n" ++ (Line.lyric b).getLyrics ++
        "\n\\end\x7bcenter\x7d\n" ++ (if first then "\\cite\n" else "") ++
        "\\end\x7bframe\x7d" ∧
    createSlide first [.lyric c] =
      "\\begin\x7bframe\x7d\n\\header\n\\begin\x7bcenter\x7d\n" ++
        (Line.lyric c).getLyrics ++
        "\n\\end\x7bcenter\x7d\n" ++ (if first then "\\cite\n" else "") ++
        "\\end\x7bframe\x7d" ∧
    createSlide first ([] : List Line) = "" := by
  refine ⟨?_, ?_, ?_, rfl⟩
  · rfl
  · rw [createSlide, if_pos (by simp)]
    have hpair : String.intercalate "\n\n"
        (List.map Line.getLyrics [Line.lyric a, Line.lyric b]) =
        (Line.lyric a).getLyrics ++ "\n\n" ++ (Line.lyric b).getLyrics := rfl
    rw [hpair]
    refine String.ext ?_
    simp [String.data_append]
  · rw [createSlide, if_pos (by simp)]
    have hone : String.intercalate "\n\n"
        (List.map Line.getLyrics [Line.lyric c]) =
        (Line.lyric c).getLyrics := rfl
    rw [hone]
    refine String.ext ?_
    simp [String.data_append]

/-! ### MusicLine recognition and parsing (classes.py 311-348) -/

/-- Membership in the character class `[A-Ga-z0-9#/ ]` of the
`is_music_line` regex. -/
def isSegChar (c : Char) : Bool :=
  ('A' ≤ c && c ≤ 'G') || ('a' ≤ c && c ≤ 'z') || ('0' ≤ c && c ≤ '9') ||
    c == '#' || c == '/' || c == ' '

/-- The optional tail `( \(x(\d)+\))?$` of the `is_music_line` regex; in
`re.match`, `$` also matches just before a final newline. -/
def musicTail (l : List Char) : Bool :=
  match l with
  | [] => true
  | ['\n'] => true
  | ' ' :: '(' :: 'x' :: r =>
    let ds := r.takeWhile Char.isDigit
    let r' := r.dropWhile Char.isDigit
    !ds.isEmpty && (r' == [')'] || r' == [')', '\n'])
  | _ => false

/-- The repeated group `([A-Ga-z0-9#/ ]+:?\|)+` followed by the tail,
run as a deterministic scanner (the character class excludes `:`, `|`
and `(`, so maximal munch is faithful to the regex): `inRun` records
whether at least one class character of the current group has been
consumed. -/
def musicScan : Bool → List Char → Bool
  | _, [] => false
  | inRun, ':' :: '|' :: r => inRun && (musicTail r || musicScan false r)
  | inRun, '|' :: r => inRun && (musicTail r || musicScan false r)
  | _, c :: r => isSegChar c && musicScan true r

/-- `MusicLine.is_music_line` (classes.py 329-335): the anchored regex
`^\|:?([A-Ga-z0-9#/ ]+:?\|)+( \(x(\d)+\))?$`. -/
def MusicLine.isMusicLine (line : String) : Bool :=
  match line.data with
  | '|' :: ':' :: r => musicScan false r
  | '|' :: r => musicScan false r
  | _ => false

/-- Python's `str.split(sep)` for a one-character separator, on the
character list: splits at every occurrence, keeping empty segments. -/
def splitOnChar (sep : Char) : List Char → List (List Char)
  | [] => [[]]
  | c :: rest =>
    let r := splitOnChar sep rest
    if c == sep then [] :: r
    else
      match r with
      | [] => [[c]]
      | seg :: segs => (c :: seg) :: segs

/-- Python's `str.strip()` on ASCII text: drop whitespace on both
sides. -/
def pyStrip (l : List Char) : List Char := pyRstrip (l.dropWhile pyIsSpace)

/-- The measure built from one segment by `MusicLine.parse`: a segment
containing `/` is split on single spaces into one chord per token, any
other segment is one chord of its stripped text. -/
def measureOf (m : List Char) : List Chord :=
  if m.contains '/' then
    (splitOnChar ' ' m).map (fun t => Chord.mk (String.mk t))
  else [Chord.mk (String.mk (pyStrip m))]

/-- The segment loop of `MusicLine.parse` (classes.py 341-347). -/
def MusicLine.parseGo : List (List Char) → List (List Chord)
  | [] => []
  | m :: rest =>
    if m == ['\n'] then MusicLine.parseGo rest
    else if m.contains '/' then
      ((splitOnChar ' ' m).map (fun t => Chord.mk (String.mk t))) ::
        MusicLine.parseGo rest
    else [Chord.mk (String.mk (pyStrip m))] :: MusicLine.parseGo rest

/-- `MusicLine.parse` (classes.py 337-348): split on `|`, skip the
leading segment, build the measures. -/
def MusicLine.parse (line : String) : List (List Chord) :=
  MusicLine.parseGo ((splitOnChar '|' line.data).drop 1)

/-- C4 counterexample: the line `"|G|Em|"` (no trailing newline) is
accepted as a MusicLine, yet its empty terminal segment after the last
`|` produces a third measure holding a single empty chord, which the
claim forbids. -/
theorem c4_counterexample :
    MusicLine.isMusicLine "|G|Em|" = true ∧
    MusicLine.parse "|G|Em|" = [[⟨"G"⟩], [⟨"Em"⟩], [⟨""⟩]] := by
  refine ⟨by decide, by decide⟩

/-- C4 (amended): `MusicLine.parse` drops the leading segment and builds
one measure from every later segment except those equal to exactly the
newline character; in particular an empty terminal segment (an accepted
line without a trailing newline) yields a measure with one empty chord.
A `/`-segment is split on single spaces into chords, any other segment
is a single chord of its stripped text. -/
theorem c4_parse_measures (line : String)
    (haccept : MusicLine.isMusicLine line = true) :
    MusicLine.parse line =
      ((((splitOnChar '|' line.data).drop 1).filter
        (fun m => !(m == ['\n']))).map measureOf) := by
  rw [MusicLine.parse]
  generalize (splitOnChar '|' line.data).drop 1 = segs
  induction segs with
  | nil => rfl
  | cons m rest ih =>
    cases hm : (m == ['\n']) with
    | true => simp [MusicLine.parseGo, hm, ih]
    | false =>
      simp only [MusicLine.parseGo, hm, Bool.false_eq_true, if_false, ih]
      rw [List.filter_cons, hm]
      simp only [Bool.not_false, if_true, List.map_cons, measureOf]
      split <;> rfl

/-- Witness for C4 (amended), at the accepted line `"|G |Em |\n"`: the
newline terminal segment is skipped, and the two inner segments give one
trimmed chord each. -/
theorem c4_parse_measures_witness :
    MusicLine.isMusicLine "|G |Em |\n" = true ∧
    MusicLine.parse "|G |Em |\n" =
      ((((splitOnChar '|' ("|G |Em |\n").data).drop 1).filter
        (fun m => !(m == ['\n']))).map measureOf) ∧
    MusicLine.parse "|G |Em |\n" = [[⟨"G"⟩], [⟨"Em"⟩]] :=
  ⟨by decide, c4_parse_measures "|G |Em |\n" (by decide), by decide⟩

/-! ### Chordsheet rendering of lyric lines (classes.py 408-438, 472-530) -/

/-- The character loop of `Chord.convert` (classes.py 498-509): `#`
becomes `\s `. -/
def convertChars : List Char → List Char
  | [] => []
  | c :: rest =>
    if c == '#' then '\\' :: 's' :: ' ' :: convertChars rest
    else c :: convertChars rest

/-- `Chord.convert` (classes.py 498-509). -/
def Chord.convert (chord : String) : String := String.mk (convertChars chord.data)

/-- `Line.MAX_LENGTH` (classes.py 222). -/
def Line.MAX_LENGTH : Nat := 52

/-- The four running values of `Lyric.generate_chordsheet`
(classes.py 409-413): the output built so far, `characters_since_chord`,
`len_last_chord` (`none` for Python's `None`) and `total_len`. -/
structure LyricGenState where
  out : String
  sinceChord : Nat
  lenLast : Option Nat
  totalLen : Nat
deriving DecidableEq, Repr

/-- One iteration of the character loop of `Lyric.generate_chordsheet`
(classes.py 415-428); a transposition failure inside
`get_len_transposed_chord` (classes.py 480-482) is `none`. -/
def lyricGenStep (n : Notes) (st : LyricGenState) (c : Character) :
    Option LyricGenState :=
  match c.chord with
  | some ch =>
    let pair :=
      match st.lenLast with
      | some len =>
        if st.sinceChord ≤ len then
          (st.out ++ "\\spv\x7b" ++ toString (len - st.sinceChord + 1) ++
             "\x7d",
           st.totalLen + (len - st.sinceChord + 1))
        else (st.out, st.totalLen)
      | none => (st.out, st.totalLen)
    match Notes.transpose n ch with
    | none => none
    | some t =>
      some { out := pair.1 ++ ("\\c\x7b" ++ Chord.convert t ++ "\x7d") ++
               c.char,
             sinceChord := 1,
             lenLast := some t.length,
             totalLen := pair.2 + 1 }
  | none =>
    some { out := st.out ++ c.char, sinceChord := st.sinceChord + 1,
           lenLast := st.lenLast, totalLen := st.totalLen + 1 }

/-- The full character loop of `Lyric.generate_chordsheet`. -/
def lyricGenFold (n : Notes) : List Character → LyricGenState →
    Option LyricGenState
  | [], st => some st
  | c :: rest, st =>
    match lyricGenStep n st c with
    | none => none
    | some st' => lyricGenFold n rest st'

/-- The final total length after the loop (classes.py 430-432): the last
chord's overhang `max(0, len_last_chord - characters_since_chord)` is
added when a chord was seen. -/
def lyricFinalWidth (st : LyricGenState) : Nat :=
  match st.lenLast with
  | some len => st.totalLen + (len - st.sinceChord)
  | none => st.totalLen

/-- `Lyric.generate_chordsheet` (classes.py 408-438). -/
def Lyric.generateChordsheet (n : Notes) (characters : List Character) :
    Option String :=
  match lyricGenFold n characters ⟨"", 0, none, 0⟩ with
  | none => none
  | some st =>
    some (if lyricFinalWidth st > Line.MAX_LENGTH then
            "\\fit\x7b" ++ st.out ++ "\x7d"
          else st.out)

/-- The computed total width of a lyric line. -/
def lyricTotalWidth (n : Notes) (characters : List Character) : Option Nat :=
  (lyricGenFold n characters ⟨"", 0, none, 0⟩).map lyricFinalWidth

/-- The rendered body of a lyric line (before the line-fit decision). -/
def lyricRenderedBody (n : Notes) (characters : List Character) :
    Option String :=
  (lyricGenFold n characters ⟨"", 0, none, 0⟩).map LyricGenState.out

/-- C5: a lyric line's rendering is wrapped in the shrink-to-fit
directive exactly when its computed total width exceeds the column
budget of 52: at width at most 52 the body is emitted bare, above 52 it
is wrapped. -/
theorem c5_fit_iff_width_exceeds_max (n : Notes) (cs : List Character)
    (w : Nat) (b : String) (hw : lyricTotalWidth n cs = some w)
    (hb : lyricRenderedBody n cs = some b) :
    Line.MAX_LENGTH = 52 ∧
    (w ≤ Line.MAX_LENGTH → Lyric.generateChordsheet n cs = some b) ∧
    (Line.MAX_LENGTH < w →
      Lyric.generateChordsheet n cs = some ("\\fit\x7b" ++ b ++ "\x7d")) := by
  rw [lyricTotalWidth] at hw
  rw [lyricRenderedBody] at hb
  cases hfold : lyricGenFold n cs ⟨"", 0, none, 0⟩ with
  | none =>
    rw [hfold] at hw
    exact absurd hw (by simp)
  | some st =>
    rw [hfold] at hw hb
    obtain rfl : lyricFinalWidth st = w := Option.some.inj hw
    obtain rfl : st.out = b := Option.some.inj hb
    refine ⟨rfl, ?_, ?_⟩ <;> intro hcmp <;>
      rw [Lyric.generateChordsheet, hfold]
    · show some (if lyricFinalWidth st > Line.MAX_LENGTH then
          "\\fit\x7b" ++ st.out ++ "\x7d" else st.out) = some st.out
      rw [if_neg (Nat.not_lt.mpr hcmp)]
    · show some (if lyricFinalWidth st > Line.MAX_LENGTH then
          "\\fit\x7b" ++ st.out ++ "\x7d" else st.out) =
        some ("\\fit\x7b" ++ st.out ++ "\x7d")
      rw [if_pos hcmp]

set_option maxRecDepth 10000 in
/-- Witness for C5 at the boundary: a plain 52-character lyric line has
total width exactly 52 and is not wrapped; a 53-character one is wrapped
in the shrink-to-fit directive. -/
theorem c5_fit_boundary_witness :
    lyricTotalWidth notesCD (List.replicate 52 (glyph "x")) = some 52 ∧
    Lyric.generateChordsheet notesCD (List.replicate 52 (glyph "x")) =
      some (String.mk (List.replicate 52 'x')) ∧
    lyricTotalWidth notesCD (List.replicate 53 (glyph "x")) = some 53 ∧
    Lyric.generateChordsheet notesCD (List.replicate 53 (glyph "x")) =
      some ("\\fit\x7b" ++ String.mk (List.replicate 53 'x') ++ "\x7d") := by
  refine ⟨by decide, ?_, by decide, ?_⟩
  · exact (c5_fit_iff_width_exceeds_max notesCD
      (List.replicate 52 (glyph "x")) 52 (String.mk (List.replicate 52 'x'))
      (by decide) (by decide)).2.1 (by decide)
  · exact (c5_fit_iff_width_exceeds_max notesCD
      (List.replicate 53 (glyph "x")) 53 (String.mk (List.replicate 53 'x'))
      (by decide) (by decide)).2.2 (by decide)

/-! ### Section wrappers and song chordsheet orchestration
(classes.py 36-53, 99-171) -/

/-- The pattern `^<base>( \d)?$` used by `Section.get_wrapper`: the name
is `base` alone or `base`, one space and one digit. -/
def optNumMatch (base name : String) : Bool :=
  name == base ||
  (decide (name.data.take base.data.length = base.data) &&
    match name.data.drop base.data.length with
    | [' ', d] => d.isDigit
    | _ => false)

/-- The archetype index resolved by the ordered regex checks of
`Section.get_wrapper` (classes.py 108-126); an unrecognized name (a
`ValueError`) is `none`. -/
def sectionKind (name : String) : Option Nat :=
  if name == "Intro" then some 0
  else if optNumMatch "Verse" name then some 1
  else if optNumMatch "Prechorus" name || optNumMatch "Pre-chorus" name ||
      optNumMatch "Pre-Chorus" name then some 2
  else if optNumMatch "Chorus" name then some 3
  else if optNumMatch "Break" name || optNumMatch "Instrumental" name then
    some 4
  else if optNumMatch "Bridge" name then some 5
  else if name == "Outro" then some 6
  else if optNumMatch "Tag" name then some 7
  else none

/-- The begin/end marker pair of each archetype (classes.py 108-124). -/
def wrapperBeginEnd : Nat → String × String
  | 0 => ("\\bi", "\\ei")
  | 1 => ("\\bv", "\\ev")
  | 2 => ("\\bp", "\\ep")
  | 3 => ("\\bc", "\\ec")
  | 4 => ("\\bin", "\\ein")
  | 5 => ("\\bb", "\\eb")
  | 6 => ("\\bo", "\\eo")
  | _ => ("\\bt", "\\et")

/-- The repeat marker of each archetype (classes.py 108-124). -/
def wrapperRepeatMarker : Nat → String
  | 0 => "\\ri"
  | 1 => "\\rv"
  | 2 => "\\rp"
  | 3 => "\\rc"
  | 4 => "\\rin"
  | 5 => "\\rb"
  | 6 => "\\ro"
  | _ => "\\rt"

/-- `Section.get_wrapper` with `repeat=False` (classes.py 99-126). -/
def Section.getWrapperPair (s : Section) : Option (String × String) :=
  (sectionKind s.name).map wrapperBeginEnd

/-- `Section.get_wrapper` with `repeat=True` (classes.py 99-126). -/
def Section.getWrapperRepMarker (s : Section) : Option String :=
  (sectionKind s.name).map wrapperRepeatMarker

/-- `Section.get_index` (classes.py 128-137): a name matching
`^([a-zA-Z]+) (\d)$` yields its trailing digit, every other name yields
1. -/
def Section.getIndex (s : Section) : Nat :=
  let letters := s.name.data.takeWhile Char.isAlpha
  if letters.isEmpty then 1
  else
    match s.name.data.drop letters.length with
    | [' ', d] => if d.isDigit then d.toNat - '0'.toNat else 1
    | _ => 1

/-- `generate_chordsheet` of the three `Line` classes: a music line
renders its chord grid with every chord transposed and converted, a
break line renders empty, a lyric line uses the width-tracking
renderer. -/
def Line.generateChordsheet (n : Notes) : Line → Option String
  | .breakLine => some ""
  | .music measures =>
    (measures.mapM (fun (m : List Chord) =>
      m.mapM (fun ch => (n.transpose ch).map Chord.convert))).map
      (fun ms => "| " ++
        String.intercalate " | " (ms.map (String.intercalate " ")) ++ " |")
  | .lyric cs => Lyric.generateChordsheet n cs

/-- `Section.generate_chordsheet` (classes.py 148-171). -/
def Section.generateChordsheet (n : Notes) (frequency : Nat)
    (repeatedSection : Bool) (s : Section) : Option String :=
  if !repeatedSection then
    match s.getWrapperPair with
    | none => none
    | some (b, e) =>
      let b := if frequency > 1 then
          b ++ "[" ++ toString frequency ++ "]" else b
      match s.lines.mapM (Line.generateChordsheet n) with
      | none => none
      | some rendered =>
        some (b ++ "\n" ++ String.intercalate "\n\n" rendered ++ "\n" ++ e)
  else
    match s.getWrapperRepMarker with
    | none => none
    | some m =>
      if frequency > 1 then
        some (m ++ "[" ++ toString frequency ++ "]" ++ "\x7b" ++
          toString s.getIndex ++ "\x7d")
      else some (m ++ "\x7b" ++ toString s.getIndex ++ "\x7d")

/-- The order loop of `Song.generate_chordsheet` (classes.py 44-52):
`gen` is the set of already generated section names; the trailing
`\esong` is produced at the end of the recursion. -/
def chordsheetGo (s : Song) (n : Notes) :
    List (String × Nat) → List String → Option String
  | [], _ => some "\\esong\n\n"
  | (name, freq) :: rest, gen =>
    (List.lookup name s.sections).bind fun sec =>
      (Section.generateChordsheet n freq (gen.contains name) sec).bind
        fun r =>
          (chordsheetGo s n rest (name :: gen)).map
            fun tail => r ++ "\n\n" ++ tail

/-- `Song.generate_chordsheet` (classes.py 36-53). -/
def Song.generateChordsheet (s : Song) (newKey : String) : Option String :=
  match Notes.mk? s.key newKey with
  | none => none
  | some n => (chordsheetGo s n s.order []).map
      (fun body => "\\bsong\n\n" ++ body)

/-- C8: an occurrence of the section named `Chorus 2` whose name is
already in the generated set (a second or later occurrence in the
performance order) renders through the chorus repeat marker `\rc` with
section index 2, and with frequency above 1 the marker also carries the
frequency — `\rc[3]{2}` at frequency 3, `\rc{2}` at frequency 1. -/
theorem c8_repeated_chorus_two (s : Song) (n : Notes)
    (rest : List (String × Nat)) (gen : List String) (freq : Nat)
    (sec : Section) (hmem : gen.contains "Chorus 2" = true)
    (hlook : List.lookup "Chorus 2" s.sections = some sec)
    (hname : sec.name = "Chorus 2") :
    Section.getIndex sec = 2 ∧
    chordsheetGo s n (("Chorus 2", freq) :: rest) gen =
      (chordsheetGo s n rest ("Chorus 2" :: gen)).map (fun tail =>
        (if freq > 1 then "\\rc[" ++ toString freq ++ "]\x7b2\x7d"
         else "\\rc\x7b2\x7d") ++ "\n\n" ++ tail) := by
  have hidx : Section.getIndex sec = 2 := by
    rw [Section.getIndex, hname]
    decide
  have hrcmark : Section.getWrapperRepMarker sec = some "\\rc" := by
    rw [Section.getWrapperRepMarker, hname]
    decide
  have hgen : Section.generateChordsheet n freq true sec =
      some (if freq > 1 then "\\rc[" ++ toString freq ++ "]\x7b2\x7d"
            else "\\rc\x7b2\x7d") := by
    rw [Section.generateChordsheet]
    simp only [Bool.not_true, Bool.false_eq_true, if_false, hrcmark, hidx]
    by_cases hf : freq > 1
    · rw [if_pos hf, if_pos hf, show toString (2 : Nat) = "2" from rfl]
      refine congrArg some (String.ext ?_)
      simp [String.data_append]
    · rw [if_neg hf, if_neg hf]
      rfl
  refine ⟨hidx, ?_⟩
  rw [chordsheetGo, hlook, Option.some_bind, hmem, hgen, Option.some_bind]

/-- A concrete section and song for the C8 witness. -/
def chorusTwoSection : Section := ⟨"Chorus 2", [.music [[⟨"C"⟩]]]⟩

/-- Song holding only `Chorus 2`, used for the C8 witness. -/
def chorusTwoSong : Song :=
  ⟨[("Chorus 2", chorusTwoSection)], [("Chorus 2", 3)], "C"⟩

/-- Witness for C8 at frequency 3: with `Chorus 2` already generated,
its next occurrence contributes exactly `\rc[3]{2}`. -/
theorem c8_repeated_chorus_two_witness :
    chordsheetGo chorusTwoSong notesCD [("Chorus 2", 3)] ["Chorus 2"] =
      some "\\rc[3]\x7b2\x7d\n\n\\esong\n\n" ∧
    Section.getIndex chorusTwoSection = 2 := by
  have h := c8_repeated_chorus_two chorusTwoSong notesCD []
    ["Chorus 2"] 3 chorusTwoSection (by decide) (by decide) (by decide)
  refine ⟨?_, h.1⟩
  rw [h.2]
  decide

end Chordsheets
